import Mathlib

/-!
Verification development for the FormKit schema compiler
(`src/packages/vue/src/FormKitSchema.ts`).

The TypeScript source is shallowly embedded: JavaScript values are the
inductive `JVal`, JS objects are association lists in insertion order,
fallible evaluation (JS exceptions such as `TypeError` on a property read
of `null`/`undefined`, or `RangeError` from `Array(n)` with negative `n`)
is `Except String`.  JS numbers are modelled as integers (`Int`); the
claims under study exercise no non-integer arithmetic, and numeric string
literals are modelled for integer values only.
-/

namespace FormKit

/-- A JavaScript runtime value.  `undefined` is the JS `undefined`, `jnull` the
JS `null`.  Arrays and plain objects are kept separate because `isNaN`,
`typeof`-independent coercions and `hasOwnProperty` treat them
differently.  Object fields are in insertion order. -/
inductive JVal where
  | undefined : JVal
  | jnull : JVal
  | bool : Bool → JVal
  | num : Int → JVal
  | str : String → JVal
  | arr : List JVal → JVal
  | obj : List (String × JVal) → JVal

/-- `v === undefined` (the only equality test the source performs on
resolved values). -/
def isUndefined : JVal → Bool
  | .undefined => true
  | _ => false

/-- `typeof v === 'object'` — true for `null`, arrays and objects. -/
def typeofIsObject : JVal → Bool
  | .jnull => true
  | .arr _ => true
  | .obj _ => true
  | _ => false

/-- JS truthiness: `undefined`, `null`, `false`, `0` and `""` are falsy. -/
def jTruthy : JVal → Bool
  | .undefined => false
  | .jnull => false
  | .bool b => b
  | .num n => n ≠ 0
  | .str s => s ≠ ""
  | .arr _ => true
  | .obj _ => true

/-- Decimal digit character for `d < 10`. -/
def digitChar (d : Nat) : Char := Char.ofNat (48 + d)

/-- Fuel-driven big-endian decimal digits of `n` (the fuel makes the
recursion structural so that closed terms reduce in the kernel). -/
def natCharsAux : Nat → Nat → List Char
  | 0, _ => []
  | fuel + 1, n =>
    if n < 10 then [digitChar n]
    else natCharsAux fuel (n / 10) ++ [digitChar (n % 10)]

/-- Canonical decimal string of a natural number, as JS produces for array
indices and `for…in` keys. -/
def natToStr (n : Nat) : String := String.mk (natCharsAux (n + 1) n)

/-- Numeric value of a decimal digit character, if it is one. -/
def digitVal (c : Char) : Option Nat :=
  if 48 ≤ c.toNat ∧ c.toNat ≤ 57 then some (c.toNat - 48) else none

/-- Left fold of decimal digits; `none` on any non-digit. -/
def parseDigits : List Char → Nat → Option Nat
  | [], acc => some acc
  | c :: cs, acc =>
    match digitVal c with
    | some d => parseDigits cs (acc * 10 + d)
    | none => none

/-- Parse a canonical array-index string: nonempty, all digits, and no
leading zero except for `"0"` itself (JS only treats canonical decimal
strings as array indices). -/
def parseIdx (s : String) : Option Nat :=
  match s.data with
  | [] => none
  | c :: cs =>
    if c = '0' ∧ cs ≠ [] then none
    else match digitVal c with
      | some d => parseDigits cs d
      | none => none

/-- First binding of `k` in an object's field list, JS property read
(`undefined` when absent). -/
def objLookupD (fields : List (String × JVal)) (k : String) : JVal :=
  match fields.find? (fun p => p.1 = k) with
  | some p => p.2
  | none => .undefined

/-- Whether an object's field list has the key (own property). -/
def objHasKey (fields : List (String × JVal)) (k : String) : Bool :=
  fields.any (fun p => p.1 = k)

/-- JS property assignment `o[k] = v`: replace in place if present (key
keeps its position), else append (insertion order). -/
def objSet (fields : List (String × JVal)) (k : String) (v : JVal) :
    List (String × JVal) :=
  if fields.any (fun p => p.1 = k) then
    fields.map (fun p => if p.1 = k then (k, v) else p)
  else fields ++ [(k, v)]

/-- `Object.assign(tgt, src)`: fields of `src` assigned left to right. -/
def objAssign (tgt src : List (String × JVal)) : List (String × JVal) :=
  src.foldl (fun acc p => objSet acc p.1 p.2) tgt

/-- JS string-keyed array read: canonical index in range gives the
element, `"length"` the length, anything else `undefined`. -/
def arrIndex (l : List JVal) (k : String) : JVal :=
  if k = "length" then .num l.length
  else match parseIdx k with
    | some i => l.getD i .undefined
    | none => .undefined

/-- JS property read `o[k]`.  Reading a property of `undefined` or `null`
throws a `TypeError`; reads on primitives are boxed (no own properties on
numbers/booleans; strings expose `length` and their characters). -/
def jGet : JVal → String → Except String JVal
  | .undefined, _ => .error "TypeError"
  | .jnull, _ => .error "TypeError"
  | .bool _, _ => .ok .undefined
  | .num _, _ => .ok .undefined
  | .str s, k =>
    .ok (if k = "length" then .num s.length
      else match parseIdx k with
        | some i => match s.data.get? i with
          | some c => .str (String.mk [c])
          | none => .undefined
        | none => .undefined)
  | .arr l, k => .ok (arrIndex l k)
  | .obj fs, k => .ok (objLookupD fs k)

/-- `has(obj, key)` from `@formkit/utils`, i.e.
`Object.prototype.hasOwnProperty.call(obj, key)`.  In `findValue` it is
only ever reached on values whose `jGet` did not throw, so the
`undefined`/`null` cases (which would throw in JS) are mapped to `false`
here and are unreachable along modelled paths. -/
def jHas : JVal → String → Bool
  | .undefined, _ => false
  | .jnull, _ => false
  | .bool _, _ => false
  | .num _, _ => false
  | .str s, k => k == "length" || (parseIdx k).any (fun i => decide (i < s.length))
  | .arr l, k => k == "length" || (parseIdx k).any (fun i => decide (i < l.length))
  | .obj fs, k => objHasKey fs k

/-- `token.split('.')` — plain split on every dot, keeping empty pieces. -/
def splitAux : List Char → List Char → List String
  | [], acc => [String.mk acc.reverse]
  | c :: cs, acc =>
    if c = '.' then String.mk acc.reverse :: splitAux cs []
    else splitAux cs (c :: acc)

/-- Dot-path of a token, as produced by `token.split('.')`. -/
def splitDots (s : String) : List String := splitAux s.data []

/-- One set's walk of `findValue` (the `path.reduce` of
`FormKitSchema.ts` lines 124–130): at every step the next object is
`obj[segment]` when that is `typeof 'object'` and `{}` otherwise; only at
the final segment, and only when the parent `has` the key, is `found`
assigned.  The JS `found` variable starts as `undefined`, so the result
`undefined` covers both "never assigned" and "assigned the value
`undefined`". -/
def findInSet : JVal → List String → Except String JVal
  | _, [] => .ok .undefined
  | set, [seg] => do
    let v ← jGet set seg
    .ok (if jHas set seg then v else .undefined)
  | set, seg :: rest => do
    let v ← jGet set seg
    findInSet (if typeofIsObject v then v else .obj []) rest

/-- `findValue(sets, path)` (lines 121–134): walk each set in order and
return the first `found !== undefined`; otherwise `undefined`. -/
def findValue : List JVal → List String → Except String JVal
  | [], _ => .ok .undefined
  | set :: rest, path => do
    let found ← findInSet set path
    if isUndefined found then findValue rest path else .ok found

/-- The scope store `data.__FK_SCP`: a map from scope identifiers
(`Symbol()` at each `parseNode` call, modelled as a counter-allocated
`Nat`) to a binding object. -/
def Store := Nat → Option (List (String × JVal))

/-- The store of the freshly created context (`new Map()`). -/
def emptyStore : Store := fun _ => none

/-- `setValue` (lines 143–156): write a binding object into the entry of
the *innermost* identifier of the scope path (`scopes[scopes.length-1]`),
merging with `Object.assign` when the entry exists.  The source is only
ever called with a nonempty scope path (`parseNode` always appends a
fresh symbol); on an empty path JS would key the map by `undefined`, an
entry no scope chain ever reads, so it is modelled as a no-op. -/
def setValue (store : Store) (scopes : List Nat) (newData : List (String × JVal)) :
    Store :=
  match scopes.getLast? with
  | none => store
  | some scope => fun s =>
    if s = scope then
      some (match store scope with
        | some fields => objAssign fields newData
        | none => newData)
    else store s

/-- The candidate chain built inside `getRef`'s effect (lines 103–106):
each scope identifier mapped through the store (`|| false` plus the
`filter` drop absent entries; stored entries are always objects, hence
truthy), then the root data object pushed last. -/
def buildSets (data : JVal) (store : Store) (scopes : List Nat) : List JVal :=
  (scopes.filterMap (fun sc => (store sc).map JVal.obj)) ++ [data]

/-- One run of `getRef`'s `watchEffect` body (lines 102–111) starting
from the ref's current value `prior`: the resolved value replaces
`prior` only when it is not `undefined`. -/
def getRefUpdate (prior : JVal) (data : JVal) (store : Store)
    (scopes : List Nat) (token : String) : Except String JVal := do
  let foundValue ← findValue (buildSets data store scopes) (splitDots token)
  .ok (if isUndefined foundValue then prior else foundValue)

/-- The value held by `getRef`'s ref on first evaluation: the ref is
created as `ref(null)`, so an unresolved token reads as `null`. -/
def getRefValue (data : JVal) (store : Store) (scopes : List Nat)
    (token : String) : Except String JVal :=
  getRefUpdate .jnull data store scopes token

/-- The transient iteration-scope stack (`iterationScopes`, line 216):
frames are binding objects; `push` appends at the end, so the head of the
list is the *oldest* (outermost) frame — the order `findValue` scans. -/
abbrev Stack := List JVal

/-- `checkScope(value, token)` (lines 225–232): when iteration frames
exist, a hit among them (scanned oldest-first by `findValue`) takes
precedence over the already-resolved `value`. -/
def checkScope (value : JVal) (token : String) (stack : Stack) :
    Except String JVal :=
  if stack.length ≠ 0 then do
    let foundValue ← findValue stack (splitDots token)
    .ok (if isUndefined foundValue then value else foundValue)
  else .ok value

/-- JS `String(v)` for the values of this model (array elements `null`
and `undefined` print as empty in a join; a plain object prints as
`[object Object]`, which is also how a VNode child would print). -/
def jToString : JVal → String
  | .undefined => "undefined"
  | .jnull => "null"
  | .bool b => if b then "true" else "false"
  | .num n => if n < 0 then "-" ++ natToStr (-n).toNat else natToStr n.toNat
  | .str s => s
  | .arr l => String.intercalate "," (l.map joinElem)
  | .obj _ => "[object Object]"
where
  /-- `Array.prototype.join` prints `null`/`undefined` elements as empty. -/
  joinElem : JVal → String
    | .undefined => ""
    | .jnull => ""
    | .bool b => if b then "true" else "false"
    | .num n => if n < 0 then "-" ++ natToStr (-n).toNat else natToStr n.toNat
    | .str s => s
    | .arr _ => "[array]"
    | .obj _ => "[object Object]"

/-- JS whitespace trimming of `ToNumber`, on the character list. -/
def trimChars (cs : List Char) : List Char :=
  ((cs.dropWhile (fun c => c.isWhitespace)).reverse.dropWhile
    (fun c => c.isWhitespace)).reverse

/-- JS `Number(string)` restricted to integer literals: trimmed, empty is
`0`, optional sign followed by digits; anything else is `NaN` (`none`).
Non-integer numeric literals are outside the model. -/
def strToNumberOpt (s : String) : Option Int :=
  match trimChars s.data with
  | [] => some 0
  | '-' :: cs =>
    match cs with
    | [] => none
    | _ => (parseDigits cs 0).map (fun n => -(n : Int))
  | '+' :: cs =>
    match cs with
    | [] => none
    | _ => (parseDigits cs 0).map (fun n => (n : Int))
  | cs => (parseDigits cs 0).map (fun n => (n : Int))

/-- JS `Number(v)` (`ToNumber`), with `none` for `NaN`: `undefined` is
`NaN`, `null` is `0`, booleans are `0`/`1`, strings parse as above, an
array coerces through its `join(",")` (so `[]` is `0`, a singleton
coerces like its element's string, and two or more elements always give
`NaN` because of the comma), plain objects give `NaN`. -/
def jToNumberOpt : JVal → Option Int
  | .undefined => none
  | .jnull => some 0
  | .bool b => some (if b then 1 else 0)
  | .num n => some n
  | .str s => strToNumberOpt s
  | .arr [] => some 0
  | .arr [x] => strToNumberOpt (jToString.joinElem x)
  | .arr (_ :: _ :: _) => none
  | .obj _ => none

/-- Stable insertion into a list sorted by the numeric component (used
for the JS integer-like key ordering; object keys are unique, so ties do
not occur). -/
def insertByIdx (p : Nat × String) : List (Nat × String) → List (Nat × String)
  | [] => [p]
  | q :: qs => if p.1 < q.1 then p :: q :: qs else q :: insertByIdx p qs

/-- Insertion sort by the numeric component. -/
def sortByIdx : List (Nat × String) → List (Nat × String)
  | [] => []
  | p :: ps => insertByIdx p (sortByIdx ps)

/-- The keys `for (const key in v)` enumerates: array indices as decimal
strings; object keys with the JS ordering (canonical integer-like keys
ascending first, then the rest in insertion order); nothing for
primitives. -/
def jsOwnKeys : JVal → List String
  | .arr l => (List.range l.length).map natToStr
  | .obj fs =>
    let ks := fs.map (fun p => p.1)
    let idx := ks.filterMap (fun k => (parseIdx k).map (fun i => (i, k)))
    (sortByIdx idx).map (fun p => p.2) ++
      ks.filter (fun k => (parseIdx k).isNone)
  | _ => []

/-- A compiled expression closure, defunctionalized.

Modelled from the spec: the external expression compiler of the schema
package (`compile(expr).provide(tokenResolverFactory)`, §6 of the spec)
is not under `src/`.  For a simple token expression — a string `$tok` —
the compiled closure invokes the token resolver for `tok` and returns its
value; the source always supplies the resolver
`token => { const value = getRef(data, scopes, token); return () =>
checkScope(value.value, token) }`.  Richer expressions (operators,
comparisons) are outside the model.  `lit` is the non-dynamic case
(`() => values` in the source). -/
inductive CExpr where
  | lit : JVal → CExpr
  | tok : String → List Nat → CExpr

/-- Evaluate a compiled expression closure against the context data, the
(fully populated) scope store and the current iteration stack. -/
def evalCExpr (data : JVal) (store : Store) : CExpr → Stack → Except String JVal
  | .lit v, _ => .ok v
  | .tok t scopes, stack => do
    let v ← getRefValue data store scopes t
    checkScope v t stack

/-- A compiled string-children closure (`parseNode` lines 370–380):
either the literal string or a compiled dynamic expression whose value is
stringified on every call. -/
inductive CTextExpr where
  | lit : String → CTextExpr
  | dyn : CExpr → CTextExpr

/- Compiled attribute artifacts, the output of `parseAttrs` /
`parseConditionAttr` (lines 189–298).  `nil` is `parseAttrs(undefined)`
(the closure `() => null`); `entries` the ordinary attribute map with its
per-key compiled values; `rootCond` the whole-map if/then/else.  A branch
of a conditional attribute is either a literal value (`() => attr.then`)
or a nested compiled attribute map. -/
mutual
inductive CAttrs where
  | nil : CAttrs
  | entries : CAttrEntryList → CAttrs
  | rootCond : CExpr → CAttrBranch → CAttrBranch → CAttrs
inductive CAttrEntryList where
  | nil : CAttrEntryList
  | cons : String → CAttrEntry → CAttrEntryList → CAttrEntryList
inductive CAttrEntry where
  | static : JVal → CAttrEntry
  | dyn : CExpr → CAttrEntry
  | condE : CExpr → CAttrBranch → CAttrBranch → CAttrEntry
  | sub : CAttrs → CAttrEntry
inductive CAttrBranch where
  | lit : JVal → CAttrBranch
  | attrs : CAttrs → CAttrBranch
end

/- One call of a compiled attribute closure, value level: statics keep
their compile-time value, dynamic/conditional/nested entries are
re-evaluated, and the returned map lists the keys in declaration order
(the source pre-seeds `attrs[attr] = undefined` in declaration order and
`Object.assign` preserves key positions).  The fresh-instance aspect of
`return { ...attrs }` is modelled separately with an allocation heap. -/
mutual
def evalAttrs (data : JVal) (store : Store) : CAttrs → Stack → Except String JVal
  | .nil, _ => .ok .jnull
  | .entries l, st => do
    let m ← evalEntries data store l st
    .ok (.obj m)
  | .rootCond c a b, st => do
    let cv ← evalCExpr data store c st
    if jTruthy cv then evalBranch data store a st else evalBranch data store b st
def evalEntries (data : JVal) (store : Store) :
    CAttrEntryList → Stack → Except String (List (String × JVal))
  | .nil, _ => .ok []
  | .cons name e rest, st => do
    let v ← evalEntry data store e st
    let m ← evalEntries data store rest st
    .ok ((name, v) :: m)
def evalEntry (data : JVal) (store : Store) : CAttrEntry → Stack → Except String JVal
  | .static v, _ => .ok v
  | .dyn e, st => evalCExpr data store e st
  | .condE c a b, st => do
    let cv ← evalCExpr data store c st
    if jTruthy cv then evalBranch data store a st else evalBranch data store b st
  | .sub a, st => evalAttrs data store a st
def evalBranch (data : JVal) (store : Store) : CAttrBranch → Stack → Except String JVal
  | .lit v, _ => .ok v
  | .attrs a, st => evalAttrs data store a st
end

/-- A renderable value: `null`, a raw string child, a text VNode
(`createTextVNode`), an element/component VNode (`h(tag, attrs, kids)`),
or an array of renderables (loop fragments and `parseSchema` lists). -/
inductive Renderable where
  | rnull : Renderable
  | str : String → Renderable
  | text : String → Renderable
  | node : String → JVal → Renderable → Renderable
  | frag : List Renderable → Renderable

/- JS `String(x)` of a renderable (used by the `'text'` element branch):
a raw string is itself, `null` prints `"null"`, VNodes print
`[object Object]`, and arrays join with `","`, printing `null` elements
as empty (the recursive `joinPiece`/`joinList` pair is
`Array.prototype.join`). -/
mutual
def joinPiece : Renderable → String
  | .rnull => ""
  | .str s => s
  | .text _ => "[object Object]"
  | .node _ _ _ => "[object Object]"
  | .frag l => joinList l
def joinList : List Renderable → String
  | [] => ""
  | [r] => joinPiece r
  | r :: rest => joinPiece r ++ "," ++ joinList rest
end

def renderableToString : Renderable → String
  | .rnull => "null"
  | .str s => s
  | .text _ => "[object Object]"
  | .node _ _ _ => "[object Object]"
  | .frag l => joinList l

/-- The iteration frame pushed per loop pass (lines 472–475):
`{ [valueName]: values[key], ...(keyName !== null ? { [keyName]: key } : {}) }`.
When `keyName` equals `valueName` the spread overwrites, which `objSet`
reproduces. -/
def mkFrame (vn : String) (kn : Option String) (v : JVal) (key : String) : JVal :=
  match kn with
  | none => .obj [(vn, v)]
  | some k => .obj (objSet [(vn, v)] k (.str key))

/-- The loop's value synthesis (lines 463–468):
`!isNaN(_v) ? Array(Number(_v)).fill(0).map((_, i) => i) : _v`.
`Array(n)` with a negative length throws a `RangeError`. -/
def loopValues (v : JVal) : Except String JVal :=
  match jToNumberOpt v with
  | some n =>
    if n < 0 then .error "RangeError"
    else .ok (.arr ((List.range n.toNat).map (fun i => .num (Int.ofNat i))))
  | none => .ok v

/-- The loop body of lines 471–478, for an already-computed `values` and
its key enumeration: per key, push one frame (append at the end of the
shared stack), invoke the repeated node's render closure, collect its
result, then `pop()` (drop the last element of whatever stack the body
left behind).  The collected results and the stack after the final pop
are returned. -/
def runIter (f : Stack → Except String (Renderable × Stack)) (vn : String)
    (kn : Option String) (vals : JVal) :
    List String → Stack → Except String (List Renderable × Stack)
  | [], st => .ok ([], st)
  | k :: ks, st => do
    let v ← jGet vals k
    let res ← f (st ++ [mkFrame vn kn v k])
    let rest ← runIter f vn kn vals ks res.2.dropLast
    .ok (res.1 :: rest.1, rest.2)

/- Compiled render artifacts.  `base` is the `createNodes` closure of
`createElement` (lines 441–457) built from the `RenderContent` tuple:
condition, element (a tag string; `$cmp` component references resolve
through external registries and are not modelled), compiled attrs,
children closure and alternate closure.  `loop` is the iterator wrapper
(lines 459–481) around the precompiled repeated node.  `CSchema` is a
`parseSchema` result (single node or list), `CChildren` the three shapes
a children closure takes (string closure, sub-schema, conditional). -/
mutual
inductive CNode where
  | base : Option CExpr → Option String → CAttrs → COptChildren → COptSchema → CNode
  | loop : CExpr → String → Option String → CNode → CNode
inductive CSchema where
  | single : CNode → CSchema
  | many : CNodeList → CSchema
inductive CNodeList where
  | nil : CNodeList
  | cons : CNode → CNodeList → CNodeList
inductive CChildren where
  | text : CTextExpr → CChildren
  | sch : CSchema → CChildren
  | cond : CExpr → CSchema → COptSchema → CChildren
inductive COptChildren where
  | none : COptChildren
  | some : CChildren → COptChildren
inductive COptSchema where
  | none : COptSchema
  | some : CSchema → COptSchema
end

/- The render pass.  Every function threads the shared iteration-scope
stack explicitly: reads (`checkScope` inside expressions) never change
it; only the loop wrapper pushes and pops.

`evalNode` on `base` is `createNodes` (lines 441–457): the bare
conditional branch, the element branch guarded by an optional `if`
condition, and the alternate fallback.  On `loop` it is the iterator
wrapper (lines 459–481): evaluate the values source, synthesize a range
for numeric values, return `null` for non-objects and otherwise iterate
the keys through `runIter`, producing the collected fragment. -/
mutual
def evalNode (data : JVal) (store : Store) :
    CNode → Stack → Except String (Renderable × Stack)
  | .base cond el attrs ch alt, st =>
    match cond, el, ch with
    | Option.some c, Option.none, .some chc => do
      let cv ← evalCExpr data store c st
      if jTruthy cv then evalChildren data store chc st
      else evalAlt data store alt st
    | cond, el, ch =>
      match el with
      | Option.some tag =>
        match cond with
        | Option.none => evalElement data store tag attrs ch st
        | Option.some c => do
          let cv ← evalCExpr data store c st
          if jTruthy cv then evalElement data store tag attrs ch st
          else evalAlt data store alt st
      | Option.none => evalAlt data store alt st
  | .loop ge vn kn inner, st => do
    let v0 ← evalCExpr data store ge st
    let values ← loopValues v0
    if typeofIsObject values then do
      let res ← runIter (fun st' => evalNode data store inner st') vn kn values
        (jsOwnKeys values) st
      .ok (.frag res.1, res.2)
    else .ok (.rnull, st)
def evalElement (data : JVal) (store : Store) (tag : String) (attrs : CAttrs) :
    COptChildren → Stack → Except String (Renderable × Stack)
  | .some c, st =>
    if tag = "text" then do
      let r ← evalChildren data store c st
      .ok (.text (renderableToString r.1), r.2)
    else do
      let a ← evalAttrs data store attrs st
      let r ← evalChildren data store c st
      .ok (.node tag a r.1, r.2)
  | .none, st => do
    let a ← evalAttrs data store attrs st
    .ok (.node tag a (.frag []), st)
def evalAlt (data : JVal) (store : Store) :
    COptSchema → Stack → Except String (Renderable × Stack)
  | .none, st => .ok (.rnull, st)
  | .some a, st => evalSchema data store a st
def evalChildren (data : JVal) (store : Store) :
    CChildren → Stack → Except String (Renderable × Stack)
  | .text (.lit s), st => .ok (.str s, st)
  | .text (.dyn e), st => do
    let v ← evalCExpr data store e st
    .ok (.str (jToString v), st)
  | .sch sc, st => evalSchema data store sc st
  | .cond c t e, st => do
    let cv ← evalCExpr data store c st
    if jTruthy cv then evalSchema data store t st
    else evalAlt data store e st
def evalSchema (data : JVal) (store : Store) :
    CSchema → Stack → Except String (Renderable × Stack)
  | .single n, st => evalNode data store n st
  | .many l, st => do
    let res ← evalList data store l st
    .ok (.frag res.1, res.2)
def evalList (data : JVal) (store : Store) :
    CNodeList → Stack → Except String (List Renderable × Stack)
  | .nil, st => .ok ([], st)
  | .cons n l, st => do
    let r ← evalNode data store n st
    let rs ← evalList data store l r.2
    .ok (r.1 :: rs.1, rs.2)
end

/-- The compile-time state threaded through parsing: the `Symbol()`
allocator (a counter, each `parseNode` appends one fresh identifier to
its parent's scope path) and the scope store, which `let` bindings
populate at parse time via `setValue`. -/
structure ParseState where
  counter : Nat
  store : Store

/-- `s.startsWith('$')`, on the character list so closed terms reduce. -/
def strStartsWithDollar (s : String) : Bool :=
  match s.data with
  | c :: _ => c == '$'
  | [] => false

/-- The dynamic-value test of `parseAttrs` (lines 261–265):
`typeof value === 'string' && value.startsWith('$') && value.length > 1`,
here specialized to the string case.  String length is the character
count (JS counts UTF-16 units; the claims involve no surrogate pairs). -/
def attrStringIsDynamic (s : String) : Bool :=
  strStartsWithDollar s && decide (1 < s.data.length)

/-- The dynamic test for string children (`parseNode` line 372):
`node.children.startsWith('$') && node.children.length > 1`. -/
def childStringIsDynamic (s : String) : Bool :=
  strStartsWithDollar s && decide (1 < s.data.length)

/-- Modelled from the spec: `compile(expr)` of the schema package (not
under `src/`) applied to a simple token expression `$tok` produces a
closure resolving the token `tok` (everything after the sigil) through
the caller's resolver; the source always binds the
`getRef`/`checkScope` resolver, which `CExpr.tok` packages with the
node's scope path. -/
def compileExpr (expr : String) (scopes : List Nat) : CExpr :=
  .tok (String.mk expr.data.tail) scopes

/- The raw-schema attribute grammar: an attribute value is a plain value,
an if/then/else attribute object (`isConditional` of the schema package,
modelled as this AST shape), or a nested plain-object map (`isPojo`).
`AValOpt.none` stands for an absent key (`has(attr, 'else')` false) or a
falsy `then`.  Arrays as `then`/`else` values of conditional attributes
(which `parseAttrs` would iterate like objects) are not modelled. -/
mutual
inductive AVal where
  | val : JVal → AVal
  | cnd : SAttrCond → AVal
  | sub : AttrMapList → AVal
inductive SAttrCond where
  | mk : String → AValOpt → AValOpt → SAttrCond
inductive AValOpt where
  | none : AValOpt
  | some : AVal → AValOpt
inductive AttrMapList where
  | nil : AttrMapList
  | cons : String → AVal → AttrMapList → AttrMapList
end

/-- A node's raw `attrs`/`props`: absent, a map, or a whole-map
conditional. -/
inductive SAttrs where
  | absent : SAttrs
  | map : AttrMapList → SAttrs
  | rootCond : SAttrCond → SAttrs

/- `parseConditionAttr` (lines 189–210) and the entry loop of
`parseAttrs` (lines 258–290), compile phase.  `parseCondAttrC` takes the
`_default` used when `else` is absent (`{}` for a root conditional,
`null` for an attribute-level one). -/
mutual
def parseCondAttrC (scopes : List Nat) : SAttrCond → JVal →
    CExpr × CAttrBranch × CAttrBranch
  | .mk ifC thn els, dflt =>
    let ce := compileExpr ifC scopes
    let a := match thn with
      | .some (.sub m) => CAttrBranch.attrs (.entries (parseAttrMapC scopes m))
      | .some (.cnd c) =>
        let t := parseCondAttrC scopes c (.obj [])
        CAttrBranch.attrs (.rootCond t.1 t.2.1 t.2.2)
      | .some (.val v) => CAttrBranch.lit v
      | .none => CAttrBranch.lit .undefined
    let b := match els with
      | .some (.sub m) => CAttrBranch.attrs (.entries (parseAttrMapC scopes m))
      | .some (.cnd c) =>
        let t := parseCondAttrC scopes c (.obj [])
        CAttrBranch.attrs (.rootCond t.1 t.2.1 t.2.2)
      | .some (.val v) => CAttrBranch.lit v
      | .none => CAttrBranch.lit dflt
    (ce, a, b)
def parseAttrMapC (scopes : List Nat) : AttrMapList → CAttrEntryList
  | .nil => .nil
  | .cons name v rest =>
    let e := match v with
      | .val (.str s) =>
        if attrStringIsDynamic s then CAttrEntry.dyn (compileExpr s scopes)
        else CAttrEntry.static (.str s)
      | .val w => CAttrEntry.static w
      | .cnd c =>
        let t := parseCondAttrC scopes c .jnull
        CAttrEntry.condE t.1 t.2.1 t.2.2
      | .sub m => CAttrEntry.sub (.entries (parseAttrMapC scopes m))
    .cons name e (parseAttrMapC scopes rest)
end

/-- `parseAttrs` (lines 239–298), compile phase: absent attrs give the
`() => null` closure; a root conditional shortcuts to
`parseConditionAttr` with default `{}`; otherwise the per-entry loop. -/
def parseAttrsC (scopes : List Nat) : SAttrs → CAttrs
  | .absent => .nil
  | .map m => .entries (parseAttrMapC scopes m)
  | .rootCond c =>
    let t := parseCondAttrC scopes c (.obj [])
    .rootCond t.1 t.2.1 t.2.2

/-- The `for` descriptor of a node: value name, optional key name, and
the raw values entry (the source's 2- and 3-element array forms
`[valueName, values]` / `[valueName, keyName, values]`). -/
structure SFor where
  valueName : String
  keyName : Option String
  values : JVal

/- The raw schema node grammar (`FormKitSchemaNode` restricted to the
shapes the claims exercise): a bare string (normalized by `parseNode` to
a text node), a DOM node (`$el` with attrs, `if`, `let`, children and
`for`), and an if/then/else node.  `$cmp` component nodes resolve
through external component registries and are not modelled.  The
`isDOM`/`isConditional` discrimination of the schema package is
represented by the constructor choice. -/
mutual
inductive SNode where
  | raw : String → SNode
  | el : String → SAttrs → Option String → List (String × JVal) → SChildren →
      Option SFor → SNode
  | cnd : String → SSchema → SSchemaOpt → SNode
inductive SSchema where
  | single : SNode → SSchema
  | many : SNodeList → SSchema
inductive SSchemaOpt where
  | none : SSchemaOpt
  | some : SSchema → SSchemaOpt
inductive SChildren where
  | none : SChildren
  | str : String → SChildren
  | list : SNodeList → SChildren
  | cond : String → SSchema → SSchemaOpt → SChildren
inductive SNodeList where
  | nil : SNodeList
  | cons : SNode → SNodeList → SNodeList
end

/-- The `let` application loop of `parseNode` (lines 362–366): one
`setValue` per key, into the node's own scope path. -/
def applyLets (ps : ParseState) (scopes : List Nat)
    (lets : List (String × JVal)) : ParseState :=
  ⟨ps.counter, lets.foldl (fun st p => setValue st scopes [(p.1, p.2)]) ps.store⟩

/-- String children compilation (`parseNode` lines 369–380): an empty
string is falsy, so `'children' in node && node.children` skips it; a
`$`-prefixed string of length `> 1` compiles to a stringified dynamic
closure; anything else is the literal text closure. -/
def parseStrChildOpt (s : String) (scopes : List Nat) : COptChildren :=
  if s = "" then .none
  else if childStringIsDynamic s then .some (.text (.dyn (compileExpr s scopes)))
  else .some (.text (.lit s))

/-- The iterator compilation of `parseNode` (lines 398–412) wrapped into
the loop render closure of `createElement` (lines 459–481): a
`$`-prefixed string values source is compiled (no length guard here),
anything else is returned identically each call. -/
def wrapFor (forS : Option SFor) (scopes : List Nat) (base : CNode) : CNode :=
  match forS with
  | none => base
  | some f =>
    let ge := match f.values with
      | .str s => if strStartsWithDollar s then compileExpr s scopes
          else CExpr.lit (.str s)
      | v => CExpr.lit v
    CNode.loop ge f.valueName f.keyName base

/- `parseNode` (lines 306–414), `parseSchema` (lines 492–505) and
`createElement`'s artifact assembly, compile phase.  Each `parseNode`
appends one fresh identifier to its parent's scope path; conditional
nodes compile to a condition plus `then`/`else` sub-schemas sharing the
node's scope path; `let` bindings are written into the store before
children are compiled. -/
mutual
def parseNodeC : SNode → List Nat → ParseState → CNode × ParseState
  | .raw s, scopes0, ps0 =>
    let scopes := scopes0 ++ [ps0.counter]
    (.base Option.none (Option.some "text") .nil (parseStrChildOpt s scopes) .none,
      ⟨ps0.counter + 1, ps0.store⟩)
  | .el tag sattrs ifC lets children forS, scopes0, ps0 =>
    let scopes := scopes0 ++ [ps0.counter]
    let ps := ParseState.mk (ps0.counter + 1) ps0.store
    let attrs := if tag = "text" then CAttrs.nil else parseAttrsC scopes sattrs
    let cond := ifC.map (fun s => compileExpr s scopes)
    let ps1 := applyLets ps scopes lets
    let (ch, ps2) := parseChildrenC children scopes ps1
    (wrapFor forS scopes (.base cond (Option.some tag) attrs ch .none), ps2)
  | .cnd ifC thn els, scopes0, ps0 =>
    let scopes := scopes0 ++ [ps0.counter]
    let ps := ParseState.mk (ps0.counter + 1) ps0.store
    let ce := compileExpr ifC scopes
    let (t, ps1) := parseSchemaC thn scopes ps
    let (e, ps2) := parseOptSchemaC els scopes ps1
    (.base (Option.some ce) Option.none .nil (.some (.sch t)) e, ps2)
def parseChildrenC : SChildren → List Nat → ParseState → COptChildren × ParseState
  | .none, _, ps => (.none, ps)
  | .str s, scopes, ps => (parseStrChildOpt s scopes, ps)
  | .list l, scopes, ps =>
    let (cl, ps1) := parseListC l scopes ps
    (.some (.sch (.many cl)), ps1)
  | .cond ifC thn els, scopes, ps =>
    let ce := compileExpr ifC scopes
    let (t, ps1) := parseSchemaC thn scopes ps
    let (e, ps2) := parseOptSchemaC els scopes ps1
    (.some (.cond ce t e), ps2)
def parseSchemaC : SSchema → List Nat → ParseState → CSchema × ParseState
  | .single n, scopes, ps =>
    let (c, ps1) := parseNodeC n scopes ps
    (.single c, ps1)
  | .many l, scopes, ps =>
    let (cl, ps1) := parseListC l scopes ps
    (.many cl, ps1)
def parseListC : SNodeList → List Nat → ParseState → CNodeList × ParseState
  | .nil, _, ps => (.nil, ps)
  | .cons n l, scopes, ps =>
    let (c, ps1) := parseNodeC n scopes ps
    let (cl, ps2) := parseListC l scopes ps1
    (.cons c cl, ps2)
def parseOptSchemaC : SSchemaOpt → List Nat → ParseState → COptSchema × ParseState
  | .none, _, ps => (.none, ps)
  | .some s, scopes, ps =>
    let (c, ps1) := parseSchemaC s scopes ps
    (.some c, ps1)
end

/-- The `FormKitSchema` component's setup (lines 527–536): compile the
schema against a fresh context whose scope path starts with one root
symbol (`[Symbol()]`, here identifier `0`, with the allocator continuing
from `1`). -/
def compileEntry (schema : SSchema) : CSchema × ParseState :=
  parseSchemaC schema [0] ⟨1, emptyStore⟩

/-- The per-iteration results of a loop body, each evaluated on the
enclosing stack extended by exactly that iteration's own frame. -/
def iterBodies (data : JVal) (store : Store) (inner : CNode) (vn : String)
    (kn : Option String) (vals : JVal) (st : Stack) :
    List String → Except String (List Renderable)
  | [] => .ok []
  | k :: ks => do
    let v ← jGet vals k
    let r ← evalNode data store inner (st ++ [mkFrame vn kn v k])
    let rs ← iterBodies data store inner vn kn vals st ks
    .ok (r.1 :: rs)

/-- The element/key pairs a `for…in` loop visits, in order. -/
def ownPairs : JVal → List (JVal × String)
  | .arr l => (List.range l.length).map (fun i => (l.getD i .undefined, natToStr i))
  | .obj fs => (jsOwnKeys (.obj fs)).map (fun k => (objLookupD fs k, k))
  | _ => []

/-- The per-iteration results of a loop body, with the frame contents
spelled out: for each visited pair the body runs once, on the enclosing
stack plus a frame binding the value name to the element and the key
name (when declared) to the key. -/
def bodiesFor (data : JVal) (store : Store) (inner : CNode) (vn : String)
    (kn : Option String) (st : Stack) :
    List (JVal × String) → Except String (List Renderable)
  | [] => .ok []
  | p :: rest => do
    let r ← evalNode data store inner (st ++ [mkFrame vn kn p.1 p.2])
    let rs ← bodiesFor data store inner vn kn st rest
    .ok (r.1 :: rs)

/-- `v` is a JS number (`typeof v === 'number'`). -/
def isNumV : JVal → Bool
  | .num _ => true
  | _ => false

/-- An allocation heap for attribute maps: `{ ...attrs }` creates a new
object, modelled as appending the copied map and returning its fresh
address. -/
structure AttrsHeap where
  maps : List (List (String × JVal))

def heapAlloc (h : AttrsHeap) (m : List (String × JVal)) : Nat × AttrsHeap :=
  (h.maps.length, ⟨h.maps ++ [m]⟩)

def heapGet (h : AttrsHeap) (a : Nat) : Option (List (String × JVal)) :=
  h.maps.get? a

/-- Mutating one field of the map at address `a` (`m[k] = v`). -/
def heapSet (h : AttrsHeap) (a : Nat) (k : String) (v : JVal) : AttrsHeap :=
  match h.maps.get? a with
  | some m => ⟨h.maps.set a (objSet m k v)⟩
  | none => h

/-- One invocation of a compiled non-conditional attribute closure
(`parseAttrs` lines 291–295): run the setters over the captured `attrs`
object, then return `{ ...attrs }` — a freshly allocated shallow copy.
After the setters, the captured object's contents are exactly the
declaration-order entry evaluation (statics keep their compile-time
value, every dynamic entry is reassigned on each call), which
`evalEntries` produces. -/
def attrsCall (data : JVal) (store : Store) (entries : CAttrEntryList)
    (stack : Stack) (h : AttrsHeap) :
    Except String ((Nat × List (String × JVal)) × AttrsHeap) := do
  let m ← evalEntries data store entries stack
  .ok (((heapAlloc h m).1, m), (heapAlloc h m).2)

/-! ### Concrete schemas used as examples and witnesses -/

/-- The spec's end-to-end loop example, inner node:
`{ $el: 'li', for: ['v', 'k', '$items'], children: '$v' }`. -/
def exampleLi : SNode :=
  .el "li" .absent Option.none [] (.str "$v")
    (Option.some ⟨"v", Option.some "k", .str "$items"⟩)

/-- The spec's end-to-end loop example:
`{ $el: 'ul', children: [{ $el: 'li', for: ['v','k','$items'], children: '$v' }] }`. -/
def exampleUl : SSchema := .single (.el "ul" .absent Option.none []
  (.list (.cons exampleLi .nil)) Option.none)

/-- The example's data: `{ items: { a: 1, b: 2 } }`. -/
def exampleData : JVal := .obj [("items", .obj [("a", .num 1), ("b", .num 2)])]

/-- A nested-loop schema where both loops bind the same variable `v`:
the outer loop ranges over `[10, 20]`, the inner one over `[1, 2]`, and
the inner body renders `$v`. -/
def nestedInnerS : SNode :=
  .el "li" .absent Option.none [] (.str "$v")
    (Option.some ⟨"v", Option.none, .arr [.num 1, .num 2]⟩)

def nestedOuterS : SSchema := .single (.el "div" .absent Option.none []
  (.list (.cons nestedInnerS .nil))
  (Option.some ⟨"v", Option.none, .arr [.num 10, .num 20]⟩))

/-- A minimal repeated node (an element with no attrs and no children),
used to exercise loop wrappers on concrete inputs. -/
def plainLi : CNode := .base Option.none (Option.some "li") .nil .none .none

/-- A node carrying `let: {x: 1}` whose own children render `$x`. -/
def shadowInnerS : SNode :=
  .el "span" .absent Option.none [("x", .num 1)] (.str "$x") Option.none

/-- A tree whose root carries `let: {x: 2}` above the `let: {x: 1}`
node: the ancestor binding sits earlier in every descendant's scope
chain. -/
def shadowOuterS : SSchema := .single (.el "div" .absent Option.none
  [("x", .num 2)] (.list (.cons shadowInnerS .nil)) Option.none)

/-! ## Helper lemmas -/

theorem isUndef_eq_false {v : JVal} (h : v ≠ .undefined) : isUndefined v = false := by
  cases v <;> simp_all [isUndefined]

theorem findValue_cons_miss {set : JVal} {rest : List JVal} {path : List String}
    (h : findInSet set path = .ok .undefined) :
    findValue (set :: rest) path = findValue rest path := by
  simp [findValue, h, isUndefined, Bind.bind, Except.bind]

theorem findValue_cons_hit {set : JVal} {rest : List JVal} {path : List String}
    {w : JVal} (h : findInSet set path = .ok w) (hw : w ≠ .undefined) :
    findValue (set :: rest) path = .ok w := by
  simp [findValue, h, Bind.bind, Except.bind, isUndef_eq_false hw]

theorem findValue_append_miss {sets₁ : List JVal} {sets₂ : List JVal}
    {path : List String} (h : ∀ m ∈ sets₁, findInSet m path = .ok .undefined) :
    findValue (sets₁ ++ sets₂) path = findValue sets₂ path := by
  induction sets₁ with
  | nil => simp
  | cons s ss ih =>
    rw [List.cons_append, findValue_cons_miss (h s (by simp))]
    exact ih (fun m hm => h m (by simp [hm]))

theorem objLookupD_objSet_self (fs : List (String × JVal)) (k : String) (v : JVal) :
    objLookupD (objSet fs k v) k = v := by
  induction fs with
  | nil => simp [objSet, objLookupD]
  | cons p ps ih =>
    by_cases hp : p.1 = k
    · simp [objSet, hp, objLookupD]
    · by_cases hs : ps.any (fun q => q.1 = k)
      · simp only [objSet, List.any_cons, hp, decide_eq_true_eq, false_or, hs,
          if_true, List.map_cons, if_neg hp]
        simp only [objSet, hs, if_true] at ih
        simpa [objLookupD, hp] using ih
      · simp only [objSet, List.any_cons, hp, decide_eq_true_eq, false_or, hs,
          if_false, List.cons_append]
        simp only [objSet, hs, if_false] at ih
        simpa [objLookupD, hp] using ih

theorem objHasKey_objSet_self (fs : List (String × JVal)) (k : String) (v : JVal) :
    objHasKey (objSet fs k v) k = true := by
  induction fs with
  | nil => simp [objSet, objHasKey]
  | cons p ps ih =>
    by_cases hp : p.1 = k
    · simp [objSet, hp, objHasKey]
    · by_cases hs : ps.any (fun q => q.1 = k)
      · simp only [objSet, List.any_cons, hp, decide_eq_true_eq, false_or, hs,
          if_true, List.map_cons, if_neg hp]
        simp only [objSet, hs, if_true] at ih
        simpa [objHasKey, hp] using ih
      · simp only [objSet, List.any_cons, hp, decide_eq_true_eq, false_or, hs,
          if_false, List.cons_append]
        simp only [objSet, hs, if_false] at ih
        simpa [objHasKey, hp] using ih

/-- A one-segment lookup in an object set: the value if the key is an own
property, `undefined` otherwise. -/
theorem findInSet_obj_single (fs : List (String × JVal)) (k : String) :
    findInSet (.obj fs) [k] =
      .ok (if objHasKey fs k then objLookupD fs k else .undefined) := by
  simp [findInSet, jGet, jHas, Bind.bind, Except.bind]

theorem setValue_apply_ne (store : Store) (p : List Nat) (s q : Nat)
    (nd : List (String × JVal)) (hq : q ≠ s) :
    setValue store (p ++ [s]) nd q = store q := by
  simp [setValue, List.getLast?_concat, hq]

theorem setValue_apply_self (store : Store) (p : List Nat) (s : Nat)
    (nd : List (String × JVal)) :
    setValue store (p ++ [s]) nd s =
      some (match store s with
        | some fields => objAssign fields nd
        | none => nd) := by
  simp [setValue, List.getLast?_concat]

theorem buildSets_append (data : JVal) (store : Store) (xs ys : List Nat) :
    buildSets data store (xs ++ ys) =
      xs.filterMap (fun sc => (store sc).map JVal.obj) ++ buildSets data store ys := by
  simp [buildSets, List.filterMap_append]

/-- If every body invocation leaves the stack as it found it, the whole
loop body (push / invoke / pop per key) leaves the stack as it found it. -/
theorem runIter_stack {f : Stack → Except String (Renderable × Stack)}
    {vn : String} {kn : Option String} {vals : JVal}
    (hf : ∀ st r st', f st = .ok (r, st') → st' = st) :
    ∀ (ks : List String) (st : Stack) (out : List Renderable × Stack),
      runIter f vn kn vals ks st = .ok out → out.2 = st := by
  intro ks
  induction ks with
  | nil => intro st out h; simp [runIter] at h; simp [← h]
  | cons k ks ih =>
    intro st out h
    simp only [runIter, Bind.bind] at h
    cases hjg : jGet vals k with
    | error e => rw [hjg] at h; simp [Except.bind] at h
    | ok v =>
      rw [hjg] at h
      simp only [Except.bind] at h
      cases hb : f (st ++ [mkFrame vn kn v k]) with
      | error e => rw [hb] at h; simp [Except.bind] at h
      | ok res =>
        rw [hb] at h
        simp only [Except.bind] at h
        have hres : res.2 = st ++ [mkFrame vn kn v k] := hf _ res.1 res.2 (by rw [hb])
        cases hr : runIter f vn kn vals ks res.2.dropLast with
        | error e => rw [hr] at h; simp [Except.bind] at h
        | ok rest =>
          rw [hr] at h
          simp only [Except.bind] at h
          have h2 : rest.2 = res.2.dropLast := ih res.2.dropLast rest hr
          cases h
          simp [h2, hres, List.dropLast_concat]

/- Stack preservation of the whole render pass: a successful evaluation
returns the iteration-scope stack at its pre-call depth and content, on
every exit path. -/
mutual
theorem evalNode_stack (data : JVal) (store : Store) :
    ∀ (n : CNode) (st : Stack) (r : Renderable) (st' : Stack),
      evalNode data store n st = .ok (r, st') → st' = st
  | .base cond el attrs ch alt, st, r, st' => by
    intro h
    match cond, el, ch with
    | Option.some c, Option.none, .some chc =>
      simp only [evalNode, Bind.bind] at h
      cases hc : evalCExpr data store c st with
      | error e => rw [hc] at h; simp [Except.bind] at h
      | ok cv =>
        rw [hc] at h
        simp only [Except.bind] at h
        by_cases ht : jTruthy cv
        · rw [if_pos ht] at h
          exact evalChildren_stack data store chc st r st' h
        · rw [if_neg ht] at h
          exact evalAlt_stack data store alt st r st' h
    | Option.none, Option.some tag, ch =>
      simp only [evalNode] at h
      exact evalElement_stack data store tag attrs ch st r st' h
    | Option.some c, Option.some tag, ch =>
      simp only [evalNode, Bind.bind] at h
      cases hc : evalCExpr data store c st with
      | error e => rw [hc] at h; simp [Except.bind] at h
      | ok cv =>
        rw [hc] at h
        simp only [Except.bind] at h
        by_cases ht : jTruthy cv
        · rw [if_pos ht] at h
          exact evalElement_stack data store tag attrs ch st r st' h
        · rw [if_neg ht] at h
          exact evalAlt_stack data store alt st r st' h
    | Option.none, Option.none, ch =>
      simp only [evalNode] at h
      exact evalAlt_stack data store alt st r st' h
    | Option.some c, Option.none, .none =>
      simp only [evalNode] at h
      exact evalAlt_stack data store alt st r st' h
  | .loop ge vn kn inner, st, r, st' => by
    intro h
    simp only [evalNode, Bind.bind] at h
    cases hg : evalCExpr data store ge st with
    | error e => rw [hg] at h; simp [Except.bind] at h
    | ok v0 =>
      rw [hg] at h
      simp only [Except.bind] at h
      cases hv : loopValues v0 with
      | error e => rw [hv] at h; simp [Except.bind] at h
      | ok values =>
        rw [hv] at h
        simp only [Except.bind] at h
        by_cases ho : typeofIsObject values
        · rw [if_pos ho] at h
          cases hri : runIter (fun st2 => evalNode data store inner st2) vn kn
              values (jsOwnKeys values) st with
          | error e => rw [hri] at h; simp [Except.bind] at h
          | ok res =>
            rw [hri] at h
            simp only [Except.bind] at h
            cases h
            exact runIter_stack
              (fun st2 r2 st2' hb => evalNode_stack data store inner st2 r2 st2' hb)
              (jsOwnKeys values) st res hri
        · rw [if_neg ho] at h
          cases h
          rfl
theorem evalElement_stack (data : JVal) (store : Store) (tag : String)
    (attrs : CAttrs) :
    ∀ (ch : COptChildren) (st : Stack) (r : Renderable) (st' : Stack),
      evalElement data store tag attrs ch st = .ok (r, st') → st' = st
  | .some c, st, r, st' => by
    intro h
    simp only [evalElement] at h
    by_cases htag : tag = "text"
    · rw [if_pos htag] at h
      simp only [Bind.bind] at h
      cases hc : evalChildren data store c st with
      | error e => rw [hc] at h; simp [Except.bind] at h
      | ok res =>
        rw [hc] at h
        simp only [Except.bind] at h
        cases h
        exact evalChildren_stack data store c st res.1 res.2 (by rw [hc])
    · rw [if_neg htag] at h
      simp only [Bind.bind] at h
      cases ha : evalAttrs data store attrs st with
      | error e => rw [ha] at h; simp [Except.bind] at h
      | ok a =>
        rw [ha] at h
        simp only [Except.bind] at h
        cases hc : evalChildren data store c st with
        | error e => rw [hc] at h; simp [Except.bind] at h
        | ok res =>
          rw [hc] at h
          simp only [Except.bind] at h
          cases h
          exact evalChildren_stack data store c st res.1 res.2 (by rw [hc])
  | .none, st, r, st' => by
    intro h
    simp only [evalElement, Bind.bind] at h
    cases ha : evalAttrs data store attrs st with
    | error e => rw [ha] at h; simp [Except.bind] at h
    | ok a =>
      rw [ha] at h
      simp only [Except.bind] at h
      cases h
      rfl
theorem evalAlt_stack (data : JVal) (store : Store) :
    ∀ (alt : COptSchema) (st : Stack) (r : Renderable) (st' : Stack),
      evalAlt data store alt st = .ok (r, st') → st' = st
  | .none, st, r, st' => by
    intro h
    simp only [evalAlt] at h
    cases h
    rfl
  | .some a, st, r, st' => by
    intro h
    simp only [evalAlt] at h
    exact evalSchema_stack data store a st r st' h
theorem evalChildren_stack (data : JVal) (store : Store) :
    ∀ (c : CChildren) (st : Stack) (r : Renderable) (st' : Stack),
      evalChildren data store c st = .ok (r, st') → st' = st
  | .text (.lit s), st, r, st' => by
    intro h
    simp only [evalChildren] at h
    cases h
    rfl
  | .text (.dyn e), st, r, st' => by
    intro h
    simp only [evalChildren, Bind.bind] at h
    cases he : evalCExpr data store e st with
    | error err => rw [he] at h; simp [Except.bind] at h
    | ok v =>
      rw [he] at h
      simp only [Except.bind] at h
      cases h
      rfl
  | .sch sc, st, r, st' => by
    intro h
    simp only [evalChildren] at h
    exact evalSchema_stack data store sc st r st' h
  | .cond c t e, st, r, st' => by
    intro h
    simp only [evalChildren, Bind.bind] at h
    cases hc : evalCExpr data store c st with
    | error err => rw [hc] at h; simp [Except.bind] at h
    | ok cv =>
      rw [hc] at h
      simp only [Except.bind] at h
      by_cases ht : jTruthy cv
      · rw [if_pos ht] at h
        exact evalSchema_stack data store t st r st' h
      · rw [if_neg ht] at h
        exact evalAlt_stack data store e st r st' h
theorem evalSchema_stack (data : JVal) (store : Store) :
    ∀ (sc : CSchema) (st : Stack) (r : Renderable) (st' : Stack),
      evalSchema data store sc st = .ok (r, st') → st' = st
  | .single n, st, r, st' => by
    intro h
    simp only [evalSchema] at h
    exact evalNode_stack data store n st r st' h
  | .many l, st, r, st' => by
    intro h
    simp only [evalSchema, Bind.bind] at h
    cases hl : evalList data store l st with
    | error e => rw [hl] at h; simp [Except.bind] at h
    | ok res =>
      rw [hl] at h
      simp only [Except.bind] at h
      cases h
      exact evalList_stack data store l st res (by rw [hl])
theorem evalList_stack (data : JVal) (store : Store) :
    ∀ (l : CNodeList) (st : Stack) (out : List Renderable × Stack),
      evalList data store l st = .ok out → out.2 = st
  | .nil, st, out => by
    intro h
    simp only [evalList] at h
    cases h
    rfl
  | .cons n l, st, out => by
    intro h
    simp only [evalList, Bind.bind] at h
    cases hn : evalNode data store n st with
    | error e => rw [hn] at h; simp [Except.bind] at h
    | ok r =>
      rw [hn] at h
      simp only [Except.bind] at h
      cases hl : evalList data store l r.2 with
      | error e => rw [hl] at h; simp [Except.bind] at h
      | ok rs =>
        rw [hl] at h
        simp only [Except.bind] at h
        cases h
        have h1 : r.2 = st := evalNode_stack data store n st r.1 r.2 (by rw [hn])
        have h2 : rs.2 = r.2 := evalList_stack data store l r.2 rs (by rw [hl])
        simp [h2, h1]
end

/-- The loop implementation is strictly LIFO: each body runs on the
enclosing stack plus its own frame, the pops undo exactly the pushes,
and the stack after the loop equals the stack before it. -/
theorem runIter_eq_iterBodies (data : JVal) (store : Store) (inner : CNode)
    (vn : String) (kn : Option String) (vals : JVal) :
    ∀ (ks : List String) (st : Stack),
      runIter (fun st' => evalNode data store inner st') vn kn vals ks st =
        (iterBodies data store inner vn kn vals st ks).map (fun rs => (rs, st)) := by
  intro ks
  induction ks with
  | nil => intro st; simp [runIter, iterBodies, Except.map]
  | cons k ks ih =>
    intro st
    simp only [runIter, iterBodies, Bind.bind]
    cases hjg : jGet vals k with
    | error e => simp [Except.bind, Except.map]
    | ok v =>
      simp only [Except.bind]
      cases hb : evalNode data store inner (st ++ [mkFrame vn kn v k]) with
      | error e => simp [Except.bind, Except.map]
      | ok res =>
        simp only [Except.bind]
        have hres : res.2 = st ++ [mkFrame vn kn v k] :=
          evalNode_stack data store inner _ res.1 res.2 (by rw [hb])
        rw [hres, List.dropLast_concat, ih st]
        cases hbs : iterBodies data store inner vn kn vals st ks with
        | error e => simp [Except.bind, Except.map]
        | ok rs => simp [Except.bind, Except.map]

/-! ### Decimal strings: canonical index keys round-trip -/

theorem digitVal_digitChar {n : Nat} (h : n < 10) :
    digitVal (digitChar n) = some n := by
  interval_cases n <;> rfl

theorem digitChar_ne_zero {n : Nat} (h0 : 0 < n) (h : n < 10) :
    digitChar n ≠ '0' := by
  interval_cases n <;> decide

theorem parseDigits_append (xs ys : List Char) (acc : Nat) :
    parseDigits (xs ++ ys) acc =
      match parseDigits xs acc with
      | some m => parseDigits ys m
      | none => none := by
  induction xs generalizing acc with
  | nil => simp [parseDigits]
  | cons c cs ih =>
    simp only [List.cons_append, parseDigits]
    cases digitVal c with
    | none => simp
    | some d => simp [ih]

theorem natCharsAux_parse :
    ∀ (fuel n : Nat), n < fuel →
      ∃ p, 0 < p ∧ ∀ acc, parseDigits (natCharsAux fuel n) acc = some (acc * p + n) := by
  intro fuel
  induction fuel with
  | zero => intro n h; omega
  | succ f ih =>
    intro n h
    by_cases h10 : n < 10
    · refine ⟨10, by omega, fun acc => ?_⟩
      simp [natCharsAux, h10, parseDigits, digitVal_digitChar h10]
    · have hn : n / 10 < f := by omega
      obtain ⟨p, hp, hpd⟩ := ih (n / 10) hn
      refine ⟨p * 10, by positivity, fun acc => ?_⟩
      simp only [natCharsAux, h10, if_false]
      rw [parseDigits_append, hpd acc]
      have hm : n % 10 < 10 := Nat.mod_lt _ (by omega)
      simp [parseDigits, digitVal_digitChar hm]
      have : (acc * p + n / 10) * 10 + n % 10 = acc * (p * 10) + n := by
        have := Nat.div_add_mod n 10
        ring_nf
        omega
      omega

theorem natCharsAux_ne_nil (fuel n : Nat) (h : n < fuel) :
    natCharsAux fuel n ≠ [] := by
  cases fuel with
  | zero => omega
  | succ f =>
    by_cases h10 : n < 10 <;> simp [natCharsAux, h10]

theorem natCharsAux_head_ne_zero :
    ∀ (fuel n : Nat), n < fuel → 0 < n →
      ∀ c cs, natCharsAux fuel n = c :: cs → c ≠ '0' := by
  intro fuel
  induction fuel with
  | zero => intro n h; omega
  | succ f ih =>
    intro n h hn c cs hcc
    by_cases h10 : n < 10
    · simp [natCharsAux, h10] at hcc
      rw [← hcc.1]
      exact digitChar_ne_zero hn h10
    · simp only [natCharsAux, h10, if_false] at hcc
      have hd : n / 10 < f := by omega
      have hdp : 0 < n / 10 := by omega
      cases hne : natCharsAux f (n / 10) with
      | nil => exact absurd hne (natCharsAux_ne_nil f _ hd)
      | cons c2 cs2 =>
        rw [hne, List.cons_append] at hcc
        injection hcc with h1 h2
        rw [← h1]
        exact ih (n / 10) hd hdp c2 cs2 hne

theorem natCharsAux_digits :
    ∀ (fuel n : Nat), n < fuel →
      ∀ c ∈ natCharsAux fuel n, 48 ≤ c.toNat ∧ c.toNat ≤ 57 := by
  intro fuel
  induction fuel with
  | zero => intro n h; omega
  | succ f ih =>
    intro n h c hc
    by_cases h10 : n < 10
    · simp [natCharsAux, h10] at hc
      subst hc
      interval_cases n <;> decide
    · simp only [natCharsAux, h10, if_false, List.mem_append, List.mem_singleton] at hc
      rcases hc with hc | hc
      · exact ih (n / 10) (by omega) c hc
      · subst hc
        have hm : n % 10 < 10 := Nat.mod_lt _ (by omega)
        interval_cases hmm : n % 10 <;> simp_all <;> decide

/-- Round-trip: the canonical decimal key of `n` parses back to `n`. -/
theorem parseIdx_natToStr (n : Nat) : parseIdx (natToStr n) = some n := by
  have hfuel : n < n + 1 := Nat.lt_succ_self n
  obtain ⟨p, hp, hpd⟩ := natCharsAux_parse (n + 1) n hfuel
  cases hne : natCharsAux (n + 1) n with
  | nil => exact absurd hne (natCharsAux_ne_nil _ _ hfuel)
  | cons c cs =>
    have hdig : 48 ≤ c.toNat ∧ c.toNat ≤ 57 :=
      natCharsAux_digits (n + 1) n hfuel c (by rw [hne]; simp)
    have hc : digitVal c = some (c.toNat - 48) := by
      simp [digitVal, hdig.1, hdig.2]
    have hparse : parseDigits (c :: cs) 0 = some n := by
      rw [← hne, hpd 0]; simp
    simp only [parseDigits, hc] at hparse
    by_cases hn0 : 0 < n
    · have hcz : c ≠ '0' := natCharsAux_head_ne_zero (n + 1) n hfuel hn0 c cs hne
      simp only [parseIdx, natToStr, hne, hcz, false_and, if_false, hc]
      simpa using hparse
    · have hn : n = 0 := by omega
      subst hn
      rfl

theorem natToStr_ne_length (n : Nat) : natToStr n ≠ "length" := by
  intro h
  have hd : natCharsAux (n + 1) n = "length".data := congrArg String.data h
  have hmem : 'l' ∈ natCharsAux (n + 1) n := by
    rw [hd]; simp [String.data]
  have hdig := natCharsAux_digits (n + 1) n (Nat.lt_succ_self n) 'l' hmem
  have h108 : ('l').toNat = 108 := by decide
  omega

/-- Array reads of generated keys: the canonical decimal key recovers the
element. -/
theorem jGet_arr_natToStr (l : List JVal) (i : Nat) :
    jGet (.arr l) (natToStr i) = .ok (l.getD i .undefined) := by
  simp [jGet, arrIndex, natToStr_ne_length i, parseIdx_natToStr]

theorem iterBodies_eq_bodiesFor (data : JVal) (store : Store) (inner : CNode)
    (vn : String) (kn : Option String) (vals : JVal) (st : Stack)
    (valOf : String → JVal) :
    ∀ ks : List String, (∀ k ∈ ks, jGet vals k = .ok (valOf k)) →
      iterBodies data store inner vn kn vals st ks =
        bodiesFor data store inner vn kn st (ks.map (fun k => (valOf k, k))) := by
  intro ks
  induction ks with
  | nil => intro h; rfl
  | cons k ks ih =>
    intro h
    simp only [iterBodies, List.map_cons, bodiesFor, Bind.bind]
    rw [h k (by simp)]
    simp only [Except.bind]
    rw [ih (fun k2 hk2 => h k2 (by simp [hk2]))]

theorem iterBodies_ownPairs_arr (data : JVal) (store : Store) (inner : CNode)
    (vn : String) (kn : Option String) (l : List JVal) (st : Stack) :
    iterBodies data store inner vn kn (.arr l) st (jsOwnKeys (.arr l)) =
      bodiesFor data store inner vn kn st (ownPairs (.arr l)) := by
  have h := iterBodies_eq_bodiesFor data store inner vn kn (.arr l) st
    (fun k => match parseIdx k with
      | some i => l.getD i .undefined
      | none => .undefined)
    (jsOwnKeys (.arr l))
    (by
      intro k hk
      simp only [jsOwnKeys, List.mem_map, List.mem_range] at hk
      obtain ⟨i, hi, rfl⟩ := hk
      rw [jGet_arr_natToStr]
      simp [parseIdx_natToStr])
  rw [h]
  simp only [jsOwnKeys, ownPairs, List.map_map]
  congr 1
  apply List.map_congr_left
  intro i hi
  simp [Function.comp, parseIdx_natToStr]

theorem iterBodies_ownPairs_obj (data : JVal) (store : Store) (inner : CNode)
    (vn : String) (kn : Option String) (fs : List (String × JVal)) (st : Stack) :
    iterBodies data store inner vn kn (.obj fs) st (jsOwnKeys (.obj fs)) =
      bodiesFor data store inner vn kn st (ownPairs (.obj fs)) := by
  exact iterBodies_eq_bodiesFor data store inner vn kn (.obj fs) st
    (fun k => objLookupD fs k) (jsOwnKeys (.obj fs)) (fun k _ => rfl)

/-- Unfolding of the loop render closure when the computed values are an
object: the fragment of the per-key body results, with the stack
restored. -/
theorem evalNode_loop_eq (data : JVal) (store : Store) (ge : CExpr)
    (vn : String) (kn : Option String) (inner : CNode) (st : Stack)
    (v values : JVal) (h1 : evalCExpr data store ge st = .ok v)
    (h2 : loopValues v = .ok values) (h3 : typeofIsObject values = true) :
    evalNode data store (.loop ge vn kn inner) st =
      (iterBodies data store inner vn kn values st (jsOwnKeys values)).map
        (fun rs => (.frag rs, st)) := by
  simp only [evalNode, Bind.bind, h1, h2, Except.bind, h3, if_true]
  rw [runIter_eq_iterBodies]
  cases iterBodies data store inner vn kn values st (jsOwnKeys values) with
  | error e => simp [Except.bind, Except.map]
  | ok rs => simp [Except.bind, Except.map]

theorem loopValues_numeric (v : JVal) (n : Int) (h : jToNumberOpt v = some n)
    (h0 : 0 ≤ n) :
    loopValues v =
      .ok (.arr ((List.range n.toNat).map (fun i => .num (Int.ofNat i)))) := by
  simp [loopValues, h, not_lt.2 h0]

theorem ownPairs_rangeArr (m : Nat) :
    ownPairs (.arr ((List.range m).map (fun (i : Nat) => JVal.num (Int.ofNat i)))) =
      (List.range m).map (fun (i : Nat) => (JVal.num (Int.ofNat i), natToStr i)) := by
  simp only [ownPairs, List.length_map, List.length_range]
  apply List.map_congr_left
  intro i hi
  simp only [List.mem_range] at hi
  simp [List.getD, List.getElem?_map, List.getElem?_range, hi]

theorem findValue_all_miss {sets : List JVal} {path : List String}
    (h : ∀ m ∈ sets, findInSet m path = .ok .undefined) :
    findValue sets path = .ok .undefined := by
  have h2 := @findValue_append_miss sets [] path h
  simpa using h2

theorem list_get?_set_ne {α : Type} :
    ∀ (l : List α) (i j : Nat), i ≠ j → ∀ a, (l.set i a).get? j = l.get? j := by
  intro l
  induction l with
  | nil => intro i j hij a; simp
  | cons x xs ih =>
    intro i j hij a
    cases i with
    | zero =>
      cases j with
      | zero => exact absurd rfl hij
      | succ j2 => simp [List.set]
    | succ i2 =>
      cases j with
      | zero => simp [List.set]
      | succ j2 =>
        simp only [List.set, List.get?]
        exact ih i2 j2 (fun he => hij (by rw [he])) a

/-! ## Claims -/

/-- C1 (counterexample): the key `"a"` is explicitly present on the first
set with value `undefined`, yet `findValue` does not return that
`undefined` from the first set — it falls through and returns `5` from
the second set (`found = obj[segment]` leaves the JS `found` variable
`undefined`, so the `found !== undefined` return guard cannot fire). -/
theorem claim1_counterexample :
    jHas (.obj [("a", .undefined)]) "a" = true ∧
    findValue [.obj [("a", .undefined)], .obj [("a", .num 5)]] ["a"] = .ok (.num 5) ∧
    findValue [.obj [("a", .undefined)], .obj [("a", .num 5)]] ["a"] ≠ .ok .undefined := by
  refine ⟨rfl, rfl, ?_⟩
  intro h
  exact JVal.noConfusion (Except.ok.inj h)

/-- C1 (amended): `findValue` does not distinguish a key present with
value `undefined` from an absent key.  In both cases the set yields no
hit and resolution falls through to the later sets; the `has` guard is
defeated by the `undefined` sentinel. -/
theorem claim1_amended :
    (∀ (fs : List (String × JVal)) (k : String) (rest : List JVal),
      objHasKey fs k = true → objLookupD fs k = .undefined →
      findValue (.obj fs :: rest) [k] = findValue rest [k]) ∧
    (∀ (fs : List (String × JVal)) (k : String) (rest : List JVal),
      objHasKey fs k = false →
      findValue (.obj fs :: rest) [k] = findValue rest [k]) := by
  constructor
  · intro fs k rest hhas hval
    apply findValue_cons_miss
    simp [findInSet_obj_single, hhas, hval]
  · intro fs k rest hhas
    apply findValue_cons_miss
    simp [findInSet_obj_single, hhas]

/-- C1 (witness): the amended fall-through behavior at the
counterexample input. -/
theorem claim1_witness :
    objHasKey [("a", JVal.undefined)] "a" = true ∧
    objLookupD [("a", JVal.undefined)] "a" = .undefined ∧
    findValue [.obj [("a", .undefined)], .obj [("a", .num 5)]] ["a"] =
      findValue [.obj [("a", .num 5)]] ["a"] :=
  ⟨rfl, rfl, claim1_amended.1 [("a", .undefined)] "a" [.obj [("a", .num 5)]] rfl rfl⟩

/-- C2 (counterexample): in a compiled tree whose root carries
`let: {x: 2}` and whose inner node carries `let: {x: 1}`, the expression
`$x` inside the `let: {x: 1}` node renders `"2"`, not `"1"`: `getRef`
maps the scope path root-to-leaf and `findValue` returns the first hit,
so the OUTERMOST binding wins over the node's own.  The third conjunct
exhibits the resolver at the inner node's own scope chain `[0, 1, 2]`
yielding the ancestor's `2`. -/
theorem claim2_counterexample :
    evalSchema (.obj []) (compileEntry shadowOuterS).2.store
      (compileEntry shadowOuterS).1 [] =
      .ok (.node "div" .jnull (.frag [.node "span" .jnull (.str "2")]), []) ∧
    evalSchema (.obj []) (compileEntry shadowOuterS).2.store
      (compileEntry shadowOuterS).1 [] ≠
      .ok (.node "div" .jnull (.frag [.node "span" .jnull (.str "1")]), []) ∧
    getRefUpdate .jnull (.obj []) (compileEntry shadowOuterS).2.store
      [0, 1, 2] "x" = .ok (.num 2) := by
  refine ⟨rfl, ?_, rfl⟩
  intro h
  have h2 : "2" = "1" := congrArg (fun e =>
    match e with
    | Except.ok (Renderable.node _ _ (.frag [Renderable.node _ _ (.str s)]), _) => s
    | _ => "") h
  exact absurd h2 (by decide)

/-- C2 (amended): a `let: {x: 1}` binding on a node with scope path
`p ++ [s]` (i) writes only into the entry of the innermost identifier
`s`; (ii) makes `$x` resolve to `1` for the node and any descendant
scope path `p ++ [s] ++ d` PROVIDED no ancestor scope in the chain also
yields `x` — the resolver scans the path outermost-first, so an ancestor
binding of `x` shadows the node's own (the counterexample); and (iii) is
invisible to a sibling scope chain that does not contain `s`: there the
resolver leaves the prior value untouched when nothing else binds `x`. -/
theorem claim2_let_binding_scoping :
    ∀ (store : Store) (data : JVal) (p : List Nat) (s : Nat) (d sib : List Nat)
      (prior : JVal),
      ((∀ q, q ≠ s → setValue store (p ++ [s]) [("x", .num 1)] q = store q) ∧
      ((∀ q ∈ p, ∀ fields, store q = some fields →
          findInSet (.obj fields) ["x"] = .ok .undefined) →
        s ∉ p →
        getRefUpdate prior data (setValue store (p ++ [s]) [("x", .num 1)])
          (p ++ [s] ++ d) "x" = .ok (.num 1)) ∧
      ((∀ q ∈ sib, ∀ fields, store q = some fields →
          findInSet (.obj fields) ["x"] = .ok .undefined) →
        s ∉ sib →
        findInSet data ["x"] = .ok .undefined →
        getRefUpdate prior data (setValue store (p ++ [s]) [("x", .num 1)])
          sib "x" = .ok prior)) := by
  intro store data p s d sib prior
  have hsplit : splitDots "x" = ["x"] := rfl
  have hs := setValue_apply_self store p s [("x", .num 1)]
  set mm := (match store s with
    | some fields => objAssign fields [("x", .num 1)]
    | none => [("x", .num 1)]) with hmmEq
  have hmm1 : objLookupD mm "x" = .num 1 := by
    rw [hmmEq]
    cases store s with
    | some fields =>
      show objLookupD (objSet fields "x" (.num 1)) "x" = .num 1
      exact objLookupD_objSet_self fields "x" (.num 1)
    | none => rfl
  have hmm2 : objHasKey mm "x" = true := by
    rw [hmmEq]
    cases store s with
    | some fields =>
      show objHasKey (objSet fields "x" (.num 1)) "x" = true
      exact objHasKey_objSet_self fields "x" (.num 1)
    | none => rfl
  have hfindmm : findInSet (.obj mm) ["x"] = .ok (.num 1) := by
    simp [findInSet_obj_single, hmm2, hmm1]
  refine ⟨?_, ?_, ?_⟩
  · intro q hq
    exact setValue_apply_ne store p s q _ hq
  · intro hp hsp
    have hassoc : p ++ [s] ++ d = p ++ ([s] ++ d) := by
      rw [List.append_assoc]
    have hchain : buildSets data (setValue store (p ++ [s]) [("x", .num 1)])
        (p ++ [s] ++ d) =
        p.filterMap (fun sc =>
          ((setValue store (p ++ [s]) [("x", .num 1)]) sc).map JVal.obj) ++
          (JVal.obj mm ::
            buildSets data (setValue store (p ++ [s]) [("x", .num 1)]) d) := by
      rw [hassoc, buildSets_append, buildSets_append]
      congr 1
      simp [hs]
    have hfront : ∀ m ∈ p.filterMap (fun sc =>
        ((setValue store (p ++ [s]) [("x", .num 1)]) sc).map JVal.obj),
        findInSet m ["x"] = .ok .undefined := by
      intro m hm
      obtain ⟨q, hq, hmq⟩ := List.mem_filterMap.1 hm
      have hqs : q ≠ s := fun he => hsp (he ▸ hq)
      rw [setValue_apply_ne store p s q _ hqs] at hmq
      obtain ⟨fields, hfq, rfl⟩ := Option.map_eq_some'.1 hmq
      exact hp q hq fields hfq
    have hfv : findValue (buildSets data
        (setValue store (p ++ [s]) [("x", .num 1)]) (p ++ [s] ++ d)) ["x"] =
        .ok (.num 1) := by
      rw [hchain, findValue_append_miss hfront]
      exact findValue_cons_hit hfindmm (fun h => JVal.noConfusion h)
    have hfv2 : findValue (buildSets data
        (setValue store (p ++ [s]) [("x", .num 1)]) (p ++ s :: d)) ["x"] =
        .ok (.num 1) := by
      have hre : p ++ [s] ++ d = p ++ s :: d := by simp
      rw [← hre]
      exact hfv
    simp [getRefUpdate, hsplit, hfv2, Bind.bind, Except.bind, isUndefined]
  · intro hsib hss hdata
    have hall : ∀ m ∈ buildSets data (setValue store (p ++ [s]) [("x", .num 1)])
        sib, findInSet m ["x"] = .ok .undefined := by
      intro m hm
      rcases List.mem_append.1 hm with hm | hm
      · obtain ⟨q, hq, hmq⟩ := List.mem_filterMap.1 hm
        have hqs : q ≠ s := fun he => hss (he ▸ hq)
        rw [setValue_apply_ne store p s q _ hqs] at hmq
        obtain ⟨fields, hfq, rfl⟩ := Option.map_eq_some'.1 hmq
        exact hsib q hq fields hfq
      · rw [List.mem_singleton.1 hm]
        exact hdata
    have hfv := findValue_all_miss hall
    simp [getRefUpdate, hsplit, hfv, Bind.bind, Except.bind, isUndefined]

/-- C2 (witness): with an empty store and empty data — so no ancestor
binds `x` — the binding written at scope `1` of path `[0, 1]` resolves
`$x` to `1` from the descendant chain `[0, 1, 2]` and is invisible to
the sibling chain `[0, 3]`. -/
theorem claim2_witness :
    getRefUpdate (.num 42) (.obj []) (setValue emptyStore ([0] ++ [1])
      [("x", .num 1)]) ([0] ++ [1] ++ [2]) "x" = .ok (.num 1) ∧
    getRefUpdate (.num 42) (.obj []) (setValue emptyStore ([0] ++ [1])
      [("x", .num 1)]) [0, 3] "x" = .ok (.num 42) :=
  ⟨(claim2_let_binding_scoping emptyStore (.obj []) [0] 1 [2] [0, 3]
      (.num 42)).2.1
      (fun _ _ _ hf => Option.noConfusion hf) (by decide),
   (claim2_let_binding_scoping emptyStore (.obj []) [0] 1 [2] [0, 3]
      (.num 42)).2.2
      (fun _ _ _ hf => Option.noConfusion hf) (by decide) rfl⟩

/-- C3: the shared iteration-scope stack is strictly LIFO.  (1) Every
successful evaluation of a compiled render closure — conditionals, loops
and nesting included — returns the stack exactly as it found it, on every
exit path.  (2) The loop wrapper is equivalent to running each iteration
body on the enclosing stack extended by exactly that iteration's own
frame (one push before the body, one pop after it), with the stack equal
to the pre-loop stack after the closure returns. -/
theorem claim3_iteration_stack_lifo :
    (∀ (data : JVal) (store : Store) (n : CNode) (st : Stack) (r : Renderable)
        (st' : Stack), evalNode data store n st = .ok (r, st') → st' = st) ∧
    (∀ (data : JVal) (store : Store) (inner : CNode) (vn : String)
        (kn : Option String) (vals : JVal) (ks : List String) (st : Stack),
      runIter (fun st' => evalNode data store inner st') vn kn vals ks st =
        (iterBodies data store inner vn kn vals st ks).map (fun rs => (rs, st))) :=
  ⟨fun data store n st r st' h => evalNode_stack data store n st r st' h,
   fun data store inner vn kn vals ks st =>
     runIter_eq_iterBodies data store inner vn kn vals ks st⟩

/-- C3 (witness): a concrete loop evaluation starting from a nonempty
stack returns that very stack. -/
theorem claim3_witness :
    evalNode (.obj []) emptyStore
      (.loop (.lit (.obj [("a", .num 1)])) "v" Option.none plainLi)
      [.obj [("w", .num 9)]] =
      .ok (.frag [.node "li" .jnull (.frag [])], [.obj [("w", .num 9)]]) ∧
    ([.obj [("w", .num 9)]] : Stack) = [.obj [("w", .num 9)]] :=
  ⟨rfl, claim3_iteration_stack_lifo.1 (.obj []) emptyStore
    (.loop (.lit (.obj [("a", .num 1)])) "v" Option.none plainLi)
    [.obj [("w", .num 9)]] (.frag [.node "li" .jnull (.frag [])])
    [.obj [("w", .num 9)]] rfl⟩

/-- C4: loop semantics.  (1) When the evaluated values coerce to a
(nonnegative) number `n`, the repeated body runs once per element of the
zero-based sequence `0..n-1`, the value name bound to the element `i`
and the key name (when declared) to the key `"i"`.  (2) When the values
are a non-numeric indexable aggregate, the body runs once per own key in
the JS enumeration order, the value name bound to the element and the
key name to the key.  (3) The spec's end-to-end example:
`{ $el:'ul', children:[{ $el:'li', for:['v','k','$items'], children:'$v' }] }`
with `items = {a:1, b:2}` renders a `ul` whose two `li` children have
text `"1"` and `"2"` in that order. -/
theorem claim4_loop_value_semantics :
    (∀ (data : JVal) (store : Store) (ge : CExpr) (vn : String)
        (kn : Option String) (inner : CNode) (st : Stack) (v : JVal) (n : Int),
      evalCExpr data store ge st = .ok v → jToNumberOpt v = some n → 0 ≤ n →
      evalNode data store (.loop ge vn kn inner) st =
        (bodiesFor data store inner vn kn st
          ((List.range n.toNat).map
            (fun (i : Nat) => (JVal.num (Int.ofNat i), natToStr i)))).map
          (fun rs => (.frag rs, st))) ∧
    (∀ (data : JVal) (store : Store) (ge : CExpr) (vn : String)
        (kn : Option String) (inner : CNode) (st : Stack) (v : JVal),
      evalCExpr data store ge st = .ok v → jToNumberOpt v = none →
      typeofIsObject v = true →
      evalNode data store (.loop ge vn kn inner) st =
        (bodiesFor data store inner vn kn st (ownPairs v)).map
          (fun rs => (.frag rs, st))) ∧
    evalSchema exampleData (compileEntry exampleUl).2.store
      (compileEntry exampleUl).1 [] =
      .ok (.node "ul" .jnull (.frag [.frag [.node "li" .jnull (.str "1"),
        .node "li" .jnull (.str "2")]]), []) := by
  refine ⟨?_, ?_, rfl⟩
  · intro data store ge vn kn inner st v n h1 h2 h0
    rw [evalNode_loop_eq data store ge vn kn inner st v _ h1
      (loopValues_numeric v n h2 h0) rfl]
    rw [iterBodies_ownPairs_arr, ownPairs_rangeArr]
  · intro data store ge vn kn inner st v h1 h2 h3
    have hlv : loopValues v = .ok v := by simp [loopValues, h2]
    rw [evalNode_loop_eq data store ge vn kn inner st v v h1 hlv h3]
    cases v with
    | arr l => rw [iterBodies_ownPairs_arr]
    | obj fs => rw [iterBodies_ownPairs_obj]
    | jnull => simp [jToNumberOpt] at h2
    | undefined => simp [typeofIsObject] at h3
    | bool b => simp [typeofIsObject] at h3
    | num m => simp [typeofIsObject] at h3
    | str s => simp [typeofIsObject] at h3

/-- C4 (witness): the numeric case at `values = 2` runs the body at keys
`0` and `1`. -/
theorem claim4_witness :
    jToNumberOpt (.num 2) = some 2 ∧
    evalNode (.obj []) emptyStore (.loop (.lit (.num 2)) "v" Option.none plainLi)
      [] =
      (bodiesFor (.obj []) emptyStore plainLi "v" Option.none []
        ((List.range (2 : Int).toNat).map
          (fun (i : Nat) => (JVal.num (Int.ofNat i), natToStr i)))).map
        (fun rs => (.frag rs, [])) :=
  ⟨rfl, claim4_loop_value_semantics.1 (.obj []) emptyStore (.lit (.num 2)) "v"
    Option.none plainLi [] (.num 2) 2 rfl rfl (by decide)⟩

/-- C5: a loop whose evaluated values are a non-numeric scalar (neither a
number-coercible value nor `typeof 'object'`) renders nothing — the
closure returns `null`, the stack is untouched, and no error is
thrown. -/
theorem claim5_non_indexable_renders_nothing :
    ∀ (data : JVal) (store : Store) (ge : CExpr) (vn : String)
      (kn : Option String) (inner : CNode) (st : Stack) (v : JVal),
      evalCExpr data store ge st = .ok v → jToNumberOpt v = none →
      typeofIsObject v = false →
      evalNode data store (.loop ge vn kn inner) st = .ok (.rnull, st) := by
  intro data store ge vn kn inner st v h1 h2 h3
  have hlv : loopValues v = .ok v := by simp [loopValues, h2]
  simp [evalNode, Bind.bind, h1, hlv, Except.bind, h3]

/-- C5 (witness): looping over the scalar `"abc"` renders nothing and
does not throw. -/
theorem claim5_witness :
    jToNumberOpt (.str "abc") = none ∧ typeofIsObject (.str "abc") = false ∧
    evalNode (.obj []) emptyStore
      (.loop (.lit (.str "abc")) "v" Option.none plainLi) [] = .ok (.rnull, []) :=
  ⟨rfl, rfl, claim5_non_indexable_renders_nothing (.obj []) emptyStore
    (.lit (.str "abc")) "v" Option.none plainLi [] (.str "abc") rfl rfl rfl⟩

/-- C6: when resolution completes and finds no value in any scope or the
root data (`findValue` yields `undefined` without throwing), the
resolver leaves the consumer's previously held value unchanged; and the
resolver never replaces a value with `undefined` — a resolved `undefined`
result can only mean the prior value already was `undefined`. -/
theorem claim6_unresolved_keeps_prior :
    (∀ (prior data : JVal) (store : Store) (scopes : List Nat) (token : String),
      findValue (buildSets data store scopes) (splitDots token) = .ok .undefined →
      getRefUpdate prior data store scopes token = .ok prior) ∧
    (∀ (prior data : JVal) (store : Store) (scopes : List Nat) (token : String)
        (res : JVal),
      getRefUpdate prior data store scopes token = .ok res → res = .undefined →
      prior = .undefined) := by
  constructor
  · intro prior data store scopes token h
    simp [getRefUpdate, h, Bind.bind, Except.bind, isUndefined]
  · intro prior data store scopes token res h hres
    simp only [getRefUpdate, Bind.bind] at h
    cases hf : findValue (buildSets data store scopes) (splitDots token) with
    | error e => rw [hf] at h; simp [Except.bind] at h
    | ok fv =>
      rw [hf] at h
      simp only [Except.bind] at h
      have h2 : (if isUndefined fv then prior else fv) = res := Except.ok.inj h
      by_cases hu : isUndefined fv
      · rw [if_pos hu] at h2
        rw [h2, hres]
      · rw [if_neg hu] at h2
        subst h2
        subst hres
        simp [isUndefined] at hu

/-- C6 (witness): an unknown token leaves the previously held `7`. -/
theorem claim6_witness :
    findValue (buildSets (.obj []) emptyStore [0]) (splitDots "q") = .ok .undefined ∧
    getRefUpdate (.num 7) (.obj []) emptyStore [0] "q" = .ok (.num 7) :=
  ⟨rfl, claim6_unresolved_keeps_prior.1 (.num 7) (.obj []) emptyStore [0] "q" rfl⟩

/-- C7: two consecutive invocations of a compiled non-conditional
attribute closure return distinct map instances — fresh addresses on
every call (even with identical values), each call's result surviving
unchanged in the heap, and a field write through one instance never
altering the other. -/
theorem claim7_attrs_fresh_instances :
    ∀ (data : JVal) (store : Store) (scopes : List Nat) (raw : AttrMapList)
      (st1 st2 : Stack) (h : AttrsHeap) (a1 a2 : Nat)
      (m1 m2 : List (String × JVal)) (h1 h2 : AttrsHeap),
      attrsCall data store (parseAttrMapC scopes raw) st1 h = .ok ((a1, m1), h1) →
      attrsCall data store (parseAttrMapC scopes raw) st2 h1 = .ok ((a2, m2), h2) →
      a1 ≠ a2 ∧ heapGet h2 a1 = some m1 ∧ heapGet h2 a2 = some m2 ∧
      (∀ k v, heapGet (heapSet h2 a1 k v) a2 = some m2) ∧
      (∀ k v, heapGet (heapSet h2 a2 k v) a1 = some m1) := by
  intro data store scopes raw st1 st2 h a1 a2 m1 m2 h1 h2 hc1 hc2
  simp only [attrsCall, Bind.bind] at hc1 hc2
  cases he1 : evalEntries data store (parseAttrMapC scopes raw) st1 with
  | error e => rw [he1] at hc1; simp [Except.bind] at hc1
  | ok mm1 =>
    rw [he1] at hc1
    simp only [Except.bind, heapAlloc] at hc1
    cases he2 : evalEntries data store (parseAttrMapC scopes raw) st2 with
    | error e => rw [he2] at hc2; simp [Except.bind] at hc2
    | ok mm2 =>
      rw [he2] at hc2
      simp only [Except.bind, heapAlloc] at hc2
      have h1eq := Except.ok.inj hc1
      have h2eq := Except.ok.inj hc2
      have ha1 : h.maps.length = a1 := congrArg (fun z => z.1.1) h1eq
      have hm1 : mm1 = m1 := congrArg (fun z => z.1.2) h1eq
      have hh1 : (⟨h.maps ++ [mm1]⟩ : AttrsHeap) = h1 :=
        congrArg (fun z => z.2) h1eq
      have ha2 : h1.maps.length = a2 := congrArg (fun z => z.1.1) h2eq
      have hm2 : mm2 = m2 := congrArg (fun z => z.1.2) h2eq
      have hh2 : (⟨h1.maps ++ [mm2]⟩ : AttrsHeap) = h2 :=
        congrArg (fun z => z.2) h2eq
      have hmaps1 : h1.maps = h.maps ++ [m1] := by
        rw [← hh1, hm1]
      have hlen2 : a2 = h.maps.length + 1 := by
        rw [← ha2, hmaps1]; simp
      have hmaps2 : h2.maps = (h.maps ++ [m1]) ++ [m2] := by
        rw [← hh2]
        show h1.maps ++ [mm2] = (h.maps ++ [m1]) ++ [m2]
        rw [hmaps1, hm2]
      have hga1 : heapGet h2 a1 = some m1 := by
        rw [heapGet, hmaps2, ← ha1]
        rw [List.get?_append (by simp)]
        exact List.get?_concat_length h.maps m1
      have hga2 : heapGet h2 a2 = some m2 := by
        rw [heapGet, hmaps2, hlen2]
        have : h.maps.length + 1 = (h.maps ++ [m1]).length := by simp
        rw [this]
        exact List.get?_concat_length (h.maps ++ [m1]) m2
      have hne : a1 ≠ a2 := by omega
      refine ⟨hne, hga1, hga2, ?_, ?_⟩
      · intro k v
        rw [heapSet]
        rw [show (h2.maps.get? a1) = some m1 from hga1]
        show (h2.maps.set a1 (objSet m1 k v)).get? a2 = some m2
        rw [list_get?_set_ne h2.maps a1 a2 hne]
        exact hga2
      · intro k v
        rw [heapSet]
        rw [show (h2.maps.get? a2) = some m2 from hga2]
        show (h2.maps.set a2 (objSet m2 k v)).get? a1 = some m1
        rw [list_get?_set_ne h2.maps a2 a1 (fun he => hne he.symm)]
        exact hga1

/-- C7 (witness): two consecutive calls of the closure compiled from the
single-entry map `{ id: 'box' }` on an empty heap return addresses `0`
and `1`, both holding the same values but as distinct instances. -/
theorem claim7_witness :
    attrsCall (.obj []) emptyStore
      (parseAttrMapC [0] (.cons "id" (.val (.str "box")) .nil)) [] ⟨[]⟩ =
      .ok ((0, [("id", .str "box")]), ⟨[[("id", .str "box")]]⟩) ∧
    (0 : Nat) ≠ 1 ∧
    heapGet ⟨[[("id", .str "box")], [("id", .str "box")]]⟩ 0 =
      some [("id", .str "box")] :=
  ⟨rfl,
   (claim7_attrs_fresh_instances (.obj []) emptyStore [0]
      (.cons "id" (.val (.str "box")) .nil) [] [] ⟨[]⟩ 0 1
      [("id", .str "box")] [("id", .str "box")]
      ⟨[[("id", .str "box")]]⟩ ⟨[[("id", .str "box")], [("id", .str "box")]]⟩
      rfl rfl).1,
   (claim7_attrs_fresh_instances (.obj []) emptyStore [0]
      (.cons "id" (.val (.str "box")) .nil) [] [] ⟨[]⟩ 0 1
      [("id", .str "box")] [("id", .str "box")]
      ⟨[[("id", .str "box")]]⟩ ⟨[[("id", .str "box")], [("id", .str "box")]]⟩
      rfl rfl).2.1⟩

/-- C8: a string attribute value or string child is compiled as a
dynamic expression exactly when it begins with the `$` sigil and is
longer than one character; a lone `"$"` — and any string of length one —
stays a literal, in both the attribute compiler and the children
compiler. -/
theorem claim8_dollar_sigil_classification :
    (∀ s : String, attrStringIsDynamic s = true ↔
      (strStartsWithDollar s = true ∧ 1 < s.data.length)) ∧
    (∀ s : String, childStringIsDynamic s = true ↔
      (strStartsWithDollar s = true ∧ 1 < s.data.length)) ∧
    attrStringIsDynamic "$" = false ∧ childStringIsDynamic "$" = false ∧
    (∀ s : String, s.data.length = 1 → attrStringIsDynamic s = false ∧
      childStringIsDynamic s = false) ∧
    (∀ (scopes : List Nat) (name : String) (rest : AttrMapList) (s : String),
      parseAttrMapC scopes (.cons name (.val (.str s)) rest) =
        .cons name
          (if attrStringIsDynamic s then CAttrEntry.dyn (compileExpr s scopes)
            else CAttrEntry.static (.str s))
          (parseAttrMapC scopes rest)) ∧
    (∀ (s : String) (scopes : List Nat), s ≠ "" →
      parseStrChildOpt s scopes =
        if childStringIsDynamic s then
          COptChildren.some (.text (.dyn (compileExpr s scopes)))
        else COptChildren.some (.text (.lit s))) := by
  refine ⟨?_, ?_, rfl, rfl, ?_, ?_, ?_⟩
  · intro s
    simp [attrStringIsDynamic, Bool.and_eq_true]
  · intro s
    simp [childStringIsDynamic, Bool.and_eq_true]
  · intro s hlen
    constructor
    · simp [attrStringIsDynamic, hlen]
    · simp [childStringIsDynamic, hlen]
  · intro scopes name rest s
    rfl
  · intro s scopes hne
    simp [parseStrChildOpt, hne]

/-- C8 (witness): the classifiers at `"$x"` (dynamic), the one-character
string `"$"` (literal) and a concrete children compilation. -/
theorem claim8_witness :
    attrStringIsDynamic "$x" = true ∧
    attrStringIsDynamic "$" = false ∧ childStringIsDynamic "$" = false ∧
    parseStrChildOpt "$v" [0] =
      COptChildren.some (.text (.dyn (compileExpr "$v" [0]))) :=
  ⟨(claim8_dollar_sigil_classification.1 "$x").2 ⟨rfl, by decide⟩,
   (claim8_dollar_sigil_classification.2.2.2.2.1 "$" (by decide)).1,
   (claim8_dollar_sigil_classification.2.2.2.2.1 "$" (by decide)).2,
   by
     have hh := claim8_dollar_sigil_classification.2.2.2.2.2.2 "$v" [0]
       (by decide)
     rw [hh]
     rfl⟩

/-- C9 (counterexample): `"-1"` is a non-number value with
`isNaN("-1") = false`, yet the loop render closure neither iterates
`Number("-1")` times nor falls back to key iteration or empty output —
`Array(-1)` throws a `RangeError`. -/
theorem claim9_counterexample :
    isNumV (.str "-1") = false ∧ jToNumberOpt (.str "-1") = some (-1) ∧
    evalNode (.obj []) emptyStore
      (.loop (.lit (.str "-1")) "v" Option.none plainLi) [] =
      .error "RangeError" :=
  ⟨rfl, rfl, rfl⟩

/-- C9 (amended): for a non-number value `v` with `isNaN(v)` false, the
loop classifies `v` as numeric.  When `Number(v)` is a nonnegative
integer `n`, it iterates `n` times with the loop variable bound to
`0..n-1`, instead of iterating `v`'s own keys or rendering empty; when
`Number(v)` is negative, the closure throws a `RangeError` instead of
rendering. -/
theorem claim9_amended :
    (∀ (data : JVal) (store : Store) (ge : CExpr) (vn : String)
        (kn : Option String) (inner : CNode) (st : Stack) (v : JVal) (n : Int),
      evalCExpr data store ge st = .ok v → isNumV v = false →
      jToNumberOpt v = some n → 0 ≤ n →
      evalNode data store (.loop ge vn kn inner) st =
        (bodiesFor data store inner vn kn st
          ((List.range n.toNat).map
            (fun (i : Nat) => (JVal.num (Int.ofNat i), natToStr i)))).map
          (fun rs => (.frag rs, st))) ∧
    (∀ (data : JVal) (store : Store) (ge : CExpr) (vn : String)
        (kn : Option String) (inner : CNode) (st : Stack) (v : JVal) (n : Int),
      evalCExpr data store ge st = .ok v → jToNumberOpt v = some n → n < 0 →
      evalNode data store (.loop ge vn kn inner) st = .error "RangeError") := by
  constructor
  · intro data store ge vn kn inner st v n h1 _ h2 h0
    rw [evalNode_loop_eq data store ge vn kn inner st v _ h1
      (loopValues_numeric v n h2 h0) rfl]
    rw [iterBodies_ownPairs_arr, ownPairs_rangeArr]
  · intro data store ge vn kn inner st v n h1 h2 hneg
    have hlv : loopValues v = .error "RangeError" := by
      simp [loopValues, h2, hneg]
    simp [evalNode, Bind.bind, h1, hlv, Except.bind]

/-- C9 (witness): the amended numeric classification at `v = true`
(`Number(true) = 1`): one iteration with the variable bound to `0`. -/
theorem claim9_witness :
    isNumV (.bool true) = false ∧ jToNumberOpt (.bool true) = some 1 ∧
    evalNode (.obj []) emptyStore
      (.loop (.lit (.bool true)) "v" Option.none plainLi) [] =
      (bodiesFor (.obj []) emptyStore plainLi "v" Option.none []
        ((List.range (1 : Int).toNat).map
          (fun (i : Nat) => (JVal.num (Int.ofNat i), natToStr i)))).map
        (fun rs => (.frag rs, [])) :=
  ⟨rfl, rfl, claim9_amended.1 (.obj []) emptyStore (.lit (.bool true)) "v"
    Option.none plainLi [] (.bool true) 1 rfl rfl rfl (by decide)⟩

/-- C10: when nested loops bind the same variable name, an expression in
the inner body resolves to the OUTERMOST active frame: `push` appends at
the end of `iterationScopes` while `findValue` scans from the front
(oldest first) and returns the first hit.  (1) In general, a hit in the
first (outermost) frame wins over everything behind it.  (2) The
compiled nested-loop schema — outer over `[10, 20]`, inner over
`[1, 2]`, both binding `v`, inner body `$v` — renders the OUTER values
`10, 10, 20, 20`, not the inner ones. -/
theorem claim10_outermost_frame_precedence :
    (∀ (value : JVal) (token : String) (frame : JVal) (rest : Stack) (w : JVal),
      findInSet frame (splitDots token) = .ok w → w ≠ .undefined →
      checkScope value token (frame :: rest) = .ok w) ∧
    evalSchema (.obj []) (compileEntry nestedOuterS).2.store
      (compileEntry nestedOuterS).1 [] =
      .ok (.frag [
        .node "div" .jnull (.frag [.frag [.node "li" .jnull (.str "10"),
          .node "li" .jnull (.str "10")]]),
        .node "div" .jnull (.frag [.frag [.node "li" .jnull (.str "20"),
          .node "li" .jnull (.str "20")]])], []) := by
  constructor
  · intro value token frame rest w hfind hw
    simp [checkScope, Bind.bind, Except.bind,
      findValue_cons_hit hfind hw, isUndef_eq_false hw]
  · rfl

/-- C10 (witness): with the outer frame binding `v = 10` and a newer
frame binding `v = 99`, the token `v` resolves to `10`. -/
theorem claim10_witness :
    findInSet (.obj [("v", .num 10)]) (splitDots "v") = .ok (.num 10) ∧
    checkScope .jnull "v" [.obj [("v", .num 10)], .obj [("v", .num 99)]] =
      .ok (.num 10) :=
  ⟨rfl, claim10_outermost_frame_precedence.1 .jnull "v" (.obj [("v", .num 10)])
    [.obj [("v", .num 99)]] (.num 10) rfl (fun h => JVal.noConfusion h)⟩

end FormKit
